import Mathlib

/-!
Verification of the Typed Argument Codec of `pchain-client-rust`
(`src/utils/parser.rs` together with the error rendering in `src/error.rs`),
shallowly embedded in Lean 4.

Modelling conventions:
* JSON documents already parsed by `serde_json` are represented by the
  inductive type `Json`; `serde_json::from_str` itself belongs to an external
  crate, so a failed parse is represented by `none` at the call sites taking
  an `Option Json`.  An object is represented by its key/value list after
  `serde_json`'s duplicate-key elimination (keys are distinct).  Numbers are
  restricted to integers: no type in the codec's dispatch table accepts a
  fractional literal, so this loses no accepted value.
* Machine integers are represented by `Int`/`Nat`; byte buffers by `List Nat`
  (every byte the code produces is < 256).
* `borsh` serialization (`try_to_vec` / `deserialize`) is embedded per type:
  little-endian fixed-width integers, `u32`-length-prefixed strings and
  vectors, presence-byte options, raw fixed arrays.
* Error values carry structured reasons instead of the English messages that
  `parser.rs` forwards out of the external crates; the one message built by
  this repository itself (the unsupported-type error constructed in
  `parser.rs` and rendered by `error.rs`) is reproduced verbatim.
-/

/-- Parsed JSON values (model of `serde_json::Value`). -/
inductive Json where
  | null : Json
  | bool (b : Bool) : Json
  | num (n : Int) : Json
  | str (s : String) : Json
  | arr (elems : List Json) : Json
  | obj (fields : List (String × Json)) : Json

namespace Json

/-- Model of `serde_json`'s `Value::index` for a string key (`json_val["k"]`):
field lookup on objects, `Null` on a missing key and on every other variant. -/
def index (j : Json) (key : String) : Json :=
  match j with
  | .obj fields =>
    match fields.find? (fun kv => kv.1 == key) with
    | some kv => kv.2
    | none => .null
  | _ => .null

/-- Model of `Value::as_str`. -/
def asStr : Json → Option String
  | .str s => some s
  | _ => none

/-- Model of `Value::as_array`. -/
def asArr : Json → Option (List Json)
  | .arr xs => some xs
  | _ => none

end Json

/-- Model of `String::replace(" ", "")`: drop every U+0020 character (and only
that character — `replace` does not touch other whitespace). -/
def stripSpaces (s : String) : String :=
  String.mk (s.data.filter (fun c => c ≠ ' '))

/-- The 20 strings matched by the anchored regex
`^\[[ui](8|16|32|64|128);(32|64)]$` of `parser.rs` line 174. -/
def sliceForms : List String :=
  ["[i8;32]", "[i16;32]", "[i32;32]", "[i64;32]", "[i128;32]",
   "[u8;32]", "[u16;32]", "[u32;32]", "[u64;32]", "[u128;32]",
   "[i8;64]", "[i16;64]", "[i32;64]", "[i64;64]", "[i128;64]",
   "[u8;64]", "[u16;64]", "[u32;64]", "[u64;64]", "[u128;64]"]

/-- The rewriting `.replace("[", "Array<").replace(";", ",").replace("]", ">")`
of `parser.rs` line 177.  The replacement strings contain none of the later
patterns, so the three sequential passes equal one simultaneous
character-level pass. -/
def bracketRewrite (s : String) : String :=
  String.mk (s.data.flatMap (fun c =>
    if c = '[' then "Array<".data
    else if c = ';' then [',']
    else if c = ']' then ['>']
    else [c]))

/-- Lines 173-178 of `parser.rs`: a space-stripped type string matching the
slice regex is rewritten to the `Array<_,_>` form used by the dispatch table;
anything else is left unchanged. -/
def normalizeSliceType (s : String) : String :=
  if s ∈ sliceForms then bracketRewrite s else s

/-- The primitive types appearing in the dispatch tables of `parser.rs`. -/
inductive Prim where
  | i8 | i16 | i32 | i64 | i128 | u8 | u16 | u32 | u64 | u128 | bool | str
deriving DecidableEq

namespace Prim

/-- Rust name of the primitive (`stringify!($t)`). -/
def name : Prim → String
  | .i8 => "i8"
  | .i16 => "i16"
  | .i32 => "i32"
  | .i64 => "i64"
  | .i128 => "i128"
  | .u8 => "u8"
  | .u16 => "u16"
  | .u32 => "u32"
  | .u64 => "u64"
  | .u128 => "u128"
  | .bool => "bool"
  | .str => "String"

/-- Bit width of the integer primitives (0 for `bool`/`String`, unused). -/
def bits : Prim → Nat
  | .i8 => 8
  | .u8 => 8
  | .i16 => 16
  | .u16 => 16
  | .i32 => 32
  | .u32 => 32
  | .i64 => 64
  | .u64 => 64
  | .i128 => 128
  | .u128 => 128
  | .bool => 0
  | .str => 0

/-- Signedness of the integer primitives. -/
def signed : Prim → Bool
  | .i8 => true
  | .i16 => true
  | .i32 => true
  | .i64 => true
  | .i128 => true
  | _ => false

/-- Smallest literal `serde_json::from_str` accepts for the primitive. -/
def lo (p : Prim) : Int := if p.signed then -(2 ^ (p.bits - 1)) else 0

/-- Largest literal `serde_json::from_str` accepts for the primitive. -/
def hi (p : Prim) : Int := if p.signed then 2 ^ (p.bits - 1) - 1 else 2 ^ p.bits - 1

/-- The order `i8 … i128, u8 … u128, bool, String` used by the
`serialize_call_args!` invocation (the decode path lists the same twelve
types; name dispatch is order-insensitive because names are distinct). -/
def primList : List Prim :=
  [.i8, .i16, .i32, .i64, .i128, .u8, .u16, .u32, .u64, .u128, .bool, .str]

end Prim

/-- `k`-byte little-endian encoding of `m` (`m < 2 ^ (8 * k)` wherever used). -/
def leBytes : Nat → Nat → List Nat
  | 0, _ => []
  | k + 1, m => m % 256 :: leBytes k (m / 256)

/-- Read `k` little-endian bytes, returning the value and the remainder. -/
def leDecode : Nat → List Nat → Option (Nat × List Nat)
  | 0, bs => some (0, bs)
  | _ + 1, [] => none
  | k + 1, b :: bs =>
    match leDecode k bs with
    | some (m, rest) => some (b + 256 * m, rest)
    | none => none

/-- Two's-complement representative of `n` in `w` bits (`n as uN`). -/
def toTwos (w : Nat) (n : Int) : Nat := (n % (2 ^ w : Int)).toNat

/-- Signed reading of a `w`-bit two's-complement representative. -/
def fromTwos (w : Nat) (m : Nat) : Int :=
  if m < 2 ^ (w - 1) then (m : Int) else (m : Int) - 2 ^ w

/-- Value denoted by a decoded `w`-bit representative: two's complement when
signed, direct when unsigned. -/
def decInt (sg : Bool) (w : Nat) (m : Nat) : Int :=
  if sg then fromTwos w m else (m : Int)

/-- UTF-8 encoding of one Unicode scalar value (Rust `char` inside
`str::as_bytes`). -/
def charUtf8 (c : Char) : List Nat :=
  let n := c.toNat
  if n < 0x80 then [n]
  else if n < 0x800 then [0xC0 + n / 64, 0x80 + n % 64]
  else if n < 0x10000 then [0xE0 + n / 4096, 0x80 + n / 64 % 64, 0x80 + n % 64]
  else [0xF0 + n / 262144, 0x80 + n / 4096 % 64, 0x80 + n / 64 % 64, 0x80 + n % 64]

/-- UTF-8 bytes of a string (`String::as_bytes`). -/
def utf8Bytes (s : String) : List Nat := s.data.flatMap charUtf8

/-- Is `b` a UTF-8 continuation byte? -/
def isCont (b : Nat) : Bool := 0x80 ≤ b && b < 0xC0

/-- Decode one UTF-8 sequence: leading byte `b0`, continuation bytes taken
from `rest`; returns the scalar value and the remaining bytes.  Rejects bad
continuation bytes, overlong forms, surrogates and out-of-range scalars
(model of one step of `String::from_utf8`'s validation). -/
def utf8DecStep (b0 : Nat) (rest : List Nat) : Option (Nat × List Nat) :=
  if b0 < 0x80 then some (b0, rest)
  else if b0 < 0xC2 then none
  else if b0 < 0xE0 then
    match rest with
    | b1 :: rest1 =>
      if isCont b1 then some ((b0 - 0xC0) * 64 + (b1 - 0x80), rest1) else none
    | [] => none
  else if b0 < 0xF0 then
    match rest with
    | b1 :: b2 :: rest2 =>
      if isCont b1 && isCont b2 then
        let n := (b0 - 0xE0) * 4096 + (b1 - 0x80) * 64 + (b2 - 0x80)
        if n < 0x800 then none
        else if 0xD800 ≤ n ∧ n < 0xE000 then none
        else some (n, rest2)
      else none
    | _ => none
  else if b0 < 0xF5 then
    match rest with
    | b1 :: b2 :: b3 :: rest3 =>
      if isCont b1 && isCont b2 && isCont b3 then
        let n := (b0 - 0xF0) * 262144 + (b1 - 0x80) * 4096 +
          (b2 - 0x80) * 64 + (b3 - 0x80)
        if n < 0x10000 then none
        else if 0x110000 ≤ n then none
        else some (n, rest3)
      else none
    | _ => none
  else none

/-- Fuel-driven loop of the UTF-8 decoder (each step consumes at least one
byte, so `length` fuel always suffices). -/
def utf8DecFuel : Nat → List Nat → Option (List Char)
  | _, [] => some []
  | 0, _ :: _ => none
  | fuel + 1, b0 :: rest =>
    match utf8DecStep b0 rest with
    | some (n, rest1) =>
      match utf8DecFuel fuel rest1 with
      | some cs => some (Char.ofNat n :: cs)
      | none => none
    | none => none

/-- Strict UTF-8 decoding of a whole byte list (model of
`String::from_utf8`). -/
def utf8Dec (bs : List Nat) : Option (List Char) := utf8DecFuel bs.length bs

/-- Debug rendering of one character inside a quoted string, as `{:?}` does
via `char::escape_debug`: standard escapes for quote, backslash, `\n`, `\r`,
`\t`; `\u` escapes for the other control characters.  (Rust additionally
`\u`-escapes certain non-printable code points above U+009F via its Unicode
printability tables; those are approximated as printable here — both sides of
every round-trip statement below use this same rendering, so no claim depends
on that corner.) -/
def escapeChar (c : Char) : List Char :=
  if c = '"' then ['\\', '"']
  else if c = '\\' then ['\\', '\\']
  else if c = '\n' then ['\\', 'n']
  else if c = '\r' then ['\\', 'r']
  else if c = '\t' then ['\\', 't']
  else if c.toNat < 32 then
    '\\' :: 'u' :: Char.ofNat 0x7b :: (Nat.toDigits 16 c.toNat ++ [Char.ofNat 0x7d])
  else [c]

/-- Debug rendering of a string value (Rust `format!("{:?}", s)`). -/
def renderString (s : String) : String :=
  "\"" ++ String.mk (s.data.flatMap escapeChar) ++ "\""

/-- Debug rendering of a sequence (Rust `format!("{:?}", v)` on `Vec`/arrays
renders `[a, b, c]`). -/
def renderList (items : List String) : String :=
  "[" ++ String.intercalate ", " items ++ "]"

/-- Reasons the external crates reject a value on the encode path (structured
stand-ins for the English messages of `serde_json`/`borsh` that `parser.rs`
forwards verbatim): a JSON shape mismatch, an out-of-range integer literal, a
fixed array that is too short or too long, or a borsh length header overflow. -/
inductive CoerceErr where
  | invalidType
  | outOfRange
  | invalidLength
  | trailingItems
  | lenOverflow
deriving DecidableEq

/-- `serde_json::from_str::<$t>` followed by borsh `try_to_vec` for an integer
primitive, `bool` or `String` target `p`: integer literals must lie in the
primitive's range (out-of-range fails, never wraps), booleans and strings must
be the matching JSON shape. -/
def encodePrim (p : Prim) (j : Json) : Except CoerceErr (List Nat) :=
  match p, j with
  | .bool, .bool b => .ok [if b then 1 else 0]
  | .bool, _ => .error .invalidType
  | .str, .str s =>
    if (utf8Bytes s).length < 2 ^ 32 then
      .ok (leBytes 4 (utf8Bytes s).length ++ utf8Bytes s)
    else .error .lenOverflow
  | .str, _ => .error .invalidType
  | _, .num n =>
    if p.lo ≤ n ∧ n ≤ p.hi then .ok (leBytes (p.bits / 8) (toTwos p.bits n))
    else .error .outOfRange
  | _, _ => .error .invalidType

/-- `Vec<T>` built from any element coder: a JSON array whose elements all
coerce, borsh-encoded as a 4-byte little-endian count followed by the
concatenated element encodings. -/
def encodeListBy (enc : Json → Except CoerceErr (List Nat)) (j : Json) :
    Except CoerceErr (List Nat) :=
  match j with
  | .arr xs =>
    match xs.mapM enc with
    | .ok parts =>
      if xs.length < 2 ^ 32 then .ok (leBytes 4 xs.length ++ parts.flatten)
      else .error .lenOverflow
    | .error e => .error e
  | _ => .error .invalidType

/-- `Option<T>` built from any inner coder: JSON `null` is `None` (presence
byte 0), anything else coerces as the inner type (presence byte 1 before the
inner encoding). -/
def encodeOptBy (enc : Json → Except CoerceErr (List Nat)) (j : Json) :
    Except CoerceErr (List Nat) :=
  match j with
  | .null => .ok [0]
  | _ =>
    match enc j with
    | .ok bs => .ok (1 :: bs)
    | .error e => .error e

/-- serde coercion of one JSON value to `u8` (an element of `[u8; n]`). -/
def coerceByte (j : Json) : Except CoerceErr Nat :=
  match j with
  | .num n => if 0 ≤ n ∧ n ≤ 255 then .ok n.toNat else .error .outOfRange
  | _ => .error .invalidType

/-- serde sequence visit for `[u8; n]` (through `serde_big_array::Array`):
exactly `n` elements are read in order; a short array is an invalid-length
error, extra elements fail after the `n`-th, and the borsh bytes of the
resulting array are the raw element values (no length header). -/
def coerceBytesFixed : Nat → List Json → Except CoerceErr (List Nat)
  | 0, [] => .ok []
  | 0, _ :: _ => .error .trailingItems
  | _ + 1, [] => .error .invalidLength
  | n + 1, j :: rest =>
    match coerceByte j with
    | .ok b =>
      match coerceBytesFixed n rest with
      | .ok bs => .ok (b :: bs)
      | .error e => .error e
    | .error e => .error e

/-- The type shapes of the `serialize_call_args!` table
(`parser.rs` lines 203-229). -/
inductive EncTy where
  | prim (p : Prim)
  | vec (p : Prim)
  | opt (p : Prim)
  | vecVec (p : Prim)
  | optVec (p : Prim)
  | vecOpt (p : Prim)
  | arr (n : Nat)
deriving DecidableEq

/-- Coercion + borsh serialization selected by one table entry. -/
def EncTy.run : EncTy → Json → Except CoerceErr (List Nat)
  | .prim p => encodePrim p
  | .vec p => encodeListBy (encodePrim p)
  | .opt p => encodeOptBy (encodePrim p)
  | .vecVec p => encodeListBy (encodeListBy (encodePrim p))
  | .optVec p => encodeOptBy (encodeListBy (encodePrim p))
  | .vecOpt p => encodeListBy (encodeOptBy (encodePrim p))
  | .arr n => fun j =>
    match j with
    | .arr xs => coerceBytesFixed n xs
    | _ => .error .invalidType

/-- Name-keyed dispatch of `serialize_call_args!`, in the table's order
(primitives, `Vec<_>`, `Option<_>`, `Vec<Vec<_>>`, `Option<Vec<_>>`,
`Vec<Option<_>>`, `Array<u8,32>`, `Array<u8,64>`); `none` falls through to
the unsupported-type error. -/
def lookupEncoder (d : String) : Option EncTy :=
  ((Prim.primList.find? (fun p => p.name == d)).map EncTy.prim) <|>
  ((Prim.primList.find? (fun p => "Vec<" ++ p.name ++ ">" == d)).map EncTy.vec) <|>
  ((Prim.primList.find? (fun p => "Option<" ++ p.name ++ ">" == d)).map EncTy.opt) <|>
  ((Prim.primList.find? (fun p => "Vec<Vec<" ++ p.name ++ ">>" == d)).map EncTy.vecVec) <|>
  ((Prim.primList.find? (fun p => "Option<Vec<" ++ p.name ++ ">>" == d)).map EncTy.optVec) <|>
  ((Prim.primList.find? (fun p => "Vec<Option<" ++ p.name ++ ">>" == d)).map EncTy.vecOpt) <|>
  (if d == "Array<u8,32>" then some (EncTy.arr 32) else none) <|>
  (if d == "Array<u8,64>" then some (EncTy.arr 64) else none)

/-- Errors of `serialize_call_arguments`, by the `ClientError` value the source
constructs: `failToSerializeCallArgument e` is
`ClientError::FailToSerializeCallArgument` carrying the external crate's
message (abstracted to its reason `e`); `unsupportedType` is
`ClientError::FailToConvertReturnDataToTargetType(Error::new(InvalidInput,
"Provided data types is not supported"))`. -/
inductive SerErr where
  | failToSerializeCallArgument (e : CoerceErr)
  | unsupportedType
deriving DecidableEq

deriving instance DecidableEq for Except

/-- Model of `serialize_call_arguments` (`parser.rs` lines 170-230), with the
`value` argument already `serde_json`-parsed to a `Json`. -/
def serialize_call_arguments (value : Json) (data_type : String) :
    Except SerErr (List Nat) :=
  match lookupEncoder (normalizeSliceType (stripSpaces data_type)) with
  | some t =>
    match t.run value with
    | .ok bs => .ok bs
    | .error e => .error (.failToSerializeCallArgument e)
  | none => .error .unsupportedType

/-- Borsh deserialization plus `format!("{:?}", _)` for an integer primitive,
`bool` or `String` target `p`, from a byte list, returning the rendered value
and the unread remainder (`deserialize(&mut vec.as_slice())` leaves trailing
bytes unread). -/
def decodePrim (p : Prim) (bs : List Nat) : Option (String × List Nat) :=
  match p with
  | .bool =>
    match bs with
    | 0 :: rest => some ("false", rest)
    | 1 :: rest => some ("true", rest)
    | _ => none
  | .str =>
    match leDecode 4 bs with
    | some (len, r) =>
      if len ≤ r.length then
        match utf8Dec (r.take len) with
        | some cs => some (renderString (String.mk cs), r.drop len)
        | none => none
      else none
    | none => none
  | _ =>
    match leDecode (p.bits / 8) bs with
    | some (m, rest) => some (toString (decInt p.signed p.bits m), rest)
    | none => none

/-- Borsh deserialization of `count` successive elements. -/
def decodeMany (dec : List Nat → Option (String × List Nat)) :
    Nat → List Nat → Option (List String × List Nat)
  | 0, bs => some ([], bs)
  | k + 1, bs =>
    match dec bs with
    | some (s, r) =>
      match decodeMany dec k r with
      | some (ss, r2) => some (s :: ss, r2)
      | none => none
    | none => none

/-- Borsh deserialization plus Debug rendering of `Vec<p>`: a 4-byte
little-endian count followed by that many elements. -/
def decodeVec (p : Prim) (bs : List Nat) : Option (String × List Nat) :=
  match leDecode 4 bs with
  | some (count, r) =>
    match decodeMany (decodePrim p) count r with
    | some (ss, r2) => some (renderList ss, r2)
    | none => none
  | none => none

/-- Debug rendering of one `u8` value (decimal). -/
def renderByte (b : Nat) : String := toString (b : Int)

/-- Borsh deserialization plus Debug rendering of `[u8; n]`: `n` raw bytes. -/
def decodeArr (n : Nat) (bs : List Nat) : Option (String × List Nat) :=
  if n ≤ bs.length then
    some (renderList ((bs.take n).map renderByte), bs.drop n)
  else none

/-- The type shapes of the decode dispatch (`parser.rs` lines 139-153:
primitives, `Vec<_>` of primitives, `[u8;32]`, `[u8;64]`). -/
inductive DecTy where
  | prim (p : Prim)
  | vec (p : Prim)
  | arr (n : Nat)
deriving DecidableEq

/-- Deserializer + renderer selected by one decode table entry. -/
def DecTy.run : DecTy → List Nat → Option (String × List Nat)
  | .prim p => decodePrim p
  | .vec p => decodeVec p
  | .arr n => decodeArr n

/-- Name-keyed dispatch of `call_result_to_data_type`'s macro chain; `none`
falls through to the unsupported-type error.  The decode path applies no
bracket-to-`Array` rewriting: the fixed arrays are matched as `[u8;32]` /
`[u8;64]` directly. -/
def lookupDecoder (d : String) : Option DecTy :=
  ((Prim.primList.find? (fun p => p.name == d)).map DecTy.prim) <|>
  ((Prim.primList.find? (fun p => "Vec<" ++ p.name ++ ">" == d)).map DecTy.vec) <|>
  (if d == "[u8;32]" then some (DecTy.arr 32) else none) <|>
  (if d == "[u8;64]" then some (DecTy.arr 64) else none)

/-- Errors of `call_result_to_data_type`, by the `ClientError` value the source
constructs: `failToConvert` is
`ClientError::FailToConvertReturnDataToTargetType` carrying borsh's io error
(abstracted), and `unsupportedType` is the same variant carrying the constant
`Error::new(InvalidInput, "Provided data types is not supported")`. -/
inductive DecErr where
  | failToConvert
  | unsupportedType
deriving DecidableEq

/-- Model of `call_result_to_data_type` (`parser.rs` lines 84-155). -/
def call_result_to_data_type (vec : List Nat) (data_type : String) :
    Except DecErr String :=
  match lookupDecoder (stripSpaces data_type) with
  | some t =>
    match t.run vec with
    | some (s, _) => .ok s
    | none => .error .failToConvert
  | none => .error .unsupportedType

/-- Errors of `CallArguments::from_json`, by the `ClientError` value the
source constructs (`InvalidJson` carries `serde_json`'s error, abstracted). -/
inductive CErr where
  | invalidJson
  | missingFieldinJson (field : String)
deriving DecidableEq

/-- One element of the `"arguments"` array as `from_json` reads it: the pair
is kept only when both `"argument_type"` and `"argument_value"` are string
fields (`parser.rs` lines 40-46). -/
def extractArg (jarg : Json) : Option (String × String) :=
  match (jarg.index "argument_type").asStr with
  | some t =>
    match (jarg.index "argument_value").asStr with
    | some v => some (t, v)
    | none => none
  | none => none

/-- Model of `CallArguments::from_json` (`parser.rs` lines 28-49).  The
`parsed` argument is the outcome of the external `serde_json::from_str`
(`none` when the document is not valid JSON); the `CallArguments` wrapper
struct is represented by its single `arguments` field. -/
def CallArguments.from_json (parsed : Option Json) :
    Except CErr (List (String × String)) :=
  match parsed with
  | none => .error .invalidJson
  | some v =>
    match (v.index "arguments").asArr with
    | none => .error (.missingFieldinJson "arguments")
    | some args => .ok (args.filterMap extractArg)

/-- Rendered form (`error.rs`, `impl Into<String> for ClientError`) of the
unsupported-type error both codec paths build:
`format!("Fail to convert to target data type. {:?}", Error::new(ErrorKind::InvalidInput,
"Provided data types is not supported"))`.  It is a constant: the input type
string does not occur in it. -/
def unsupportedTypeErrorString : String :=
  "Fail to convert to target data type. Custom \x7b kind: InvalidInput, error: \"Provided data types is not supported\" \x7d"

/-- Canonical debug rendering of an accepted JSON value at a primitive type.
Stated from the spec's words ("the canonical debug rendering of the value")
for the round-trip claims, to be compared with what the decoder computes back
from the bytes. -/
def renderPrimJson : Prim → Json → String
  | .bool, .bool b => if b then "true" else "false"
  | .bool, _ => ""
  | .str, .str s => renderString s
  | .str, _ => ""
  | _, .num n => toString n
  | _, _ => ""

/-- Canonical debug rendering of a byte element of a fixed array. -/
def renderByteJson : Json → String
  | .num n => toString n
  | _ => ""

/-- Canonical debug rendering of an accepted JSON value at a decodable type. -/
def canonicalRender : DecTy → Json → String
  | .prim p, j => renderPrimJson p j
  | .vec p, .arr xs => renderList (xs.map (renderPrimJson p))
  | .vec _, _ => ""
  | .arr _, .arr xs => renderList (xs.map renderByteJson)
  | .arr _, _ => ""

/-- The 74 strings of the `serialize_call_args!` dispatch table. -/
def encodeTableNames : List String :=
  Prim.primList.map Prim.name ++
  Prim.primList.map (fun p => "Vec<" ++ p.name ++ ">") ++
  Prim.primList.map (fun p => "Option<" ++ p.name ++ ">") ++
  Prim.primList.map (fun p => "Vec<Vec<" ++ p.name ++ ">>") ++
  Prim.primList.map (fun p => "Option<Vec<" ++ p.name ++ ">>") ++
  Prim.primList.map (fun p => "Vec<Option<" ++ p.name ++ ">>") ++
  ["Array<u8,32>", "Array<u8,64>"]

/-- Every space-stripped input string the encode path accepts: the table
names plus the two bracket forms the slice regex rewrites into the table. -/
def encodeSupportedNames : List String :=
  encodeTableNames ++ ["[u8;32]", "[u8;64]"]

/-- The 26 strings of the decode dispatch chain. -/
def decodeTableNames : List String :=
  Prim.primList.map Prim.name ++
  Prim.primList.map (fun p => "Vec<" ++ p.name ++ ">") ++
  ["[u8;32]", "[u8;64]"]

theorem option_orElse_eq_none {α : Type} (a b : Option α) :
    (a <|> b) = none ↔ a = none ∧ b = none := by
  cases a <;> simp [Option.orElse]

theorem lookupEncoder_eq_none_iff (d : String) :
    lookupEncoder d = none ↔ d ∉ encodeTableNames := by
  simp only [lookupEncoder, option_orElse_eq_none, Option.map_eq_none',
    List.find?_eq_none, encodeTableNames, List.mem_append, List.mem_map,
    beq_iff_eq, List.mem_cons, List.not_mem_nil, or_false, ite_eq_right_iff,
    reduceCtorEq, imp_false]
  aesop

theorem lookupDecoder_eq_none_iff (d : String) :
    lookupDecoder d = none ↔ d ∉ decodeTableNames := by
  simp only [lookupDecoder, option_orElse_eq_none, Option.map_eq_none',
    List.find?_eq_none, decodeTableNames, List.mem_append, List.mem_map,
    beq_iff_eq, List.mem_cons, List.not_mem_nil, or_false, ite_eq_right_iff,
    reduceCtorEq, imp_false]
  aesop

theorem normalizeSliceType_of_not_slice {s : String} (h : s ∉ sliceForms) :
    normalizeSliceType s = s := by
  simp [normalizeSliceType, h]

/-- The encode path rejects a space-stripped type string exactly when it is
neither one of the 74 table names nor one of the two bracket forms the slice
regex rewrites into the table. -/
theorem encode_unsupported_iff (s : String) :
    lookupEncoder (normalizeSliceType s) = none ↔ s ∉ encodeSupportedNames := by
  by_cases hs : s ∈ sliceForms
  · unfold normalizeSliceType
    rw [if_pos hs]
    fin_cases hs <;> decide
  · rw [normalizeSliceType_of_not_slice hs, lookupEncoder_eq_none_iff]
    have h32 : s ≠ "[u8;32]" := by rintro rfl; exact hs (by decide)
    have h64 : s ≠ "[u8;64]" := by rintro rfl; exact hs (by decide)
    simp [encodeSupportedNames, h32, h64]

/-- Every decodable name is also an accepted encode-path input. -/
theorem decode_names_subset :
    ∀ s ∈ decodeTableNames, s ∈ encodeSupportedNames := by decide

theorem leBytes_length (k : Nat) : ∀ m, (leBytes k m).length = k := by
  induction k with
  | zero => intro m; rfl
  | succ k ih => intro m; simp [leBytes, ih]

theorem leDecode_leBytes (k : Nat) :
    ∀ m, m < 2 ^ (8 * k) → ∀ rest, leDecode k (leBytes k m ++ rest) = some (m, rest) := by
  induction k with
  | zero =>
    intro m hm rest
    have hm0 : m = 0 := by simpa using hm
    subst hm0
    rfl
  | succ k ih =>
    intro m hm rest
    have hsplit : 2 ^ (8 * (k + 1)) = 2 ^ (8 * k) * 256 := by
      rw [Nat.mul_succ, pow_add]
      norm_num
    have hm2 : m / 256 < 2 ^ (8 * k) := by
      rw [Nat.div_lt_iff_lt_mul (by norm_num)]
      omega
    simp only [leBytes, List.cons_append, leDecode]
    have h3 := ih (m / 256) hm2 rest
    show (match leDecode k (leBytes k (m / 256) ++ rest) with
      | some (m1, r) => some (m % 256 + 256 * m1, r)
      | none => none) = some (m, rest)
    rw [h3]
    simp only [Option.some.injEq, Prod.mk.injEq]
    exact ⟨by omega, trivial⟩

theorem toTwos_lt (w : Nat) (n : Int) : toTwos w n < 2 ^ w := by
  unfold toTwos
  have hpos : (0 : Int) < 2 ^ w := by positivity
  have h1 : n % 2 ^ w < 2 ^ w := Int.emod_lt_of_pos n hpos
  have h0 : 0 ≤ n % 2 ^ w := Int.emod_nonneg n (ne_of_gt hpos)
  have hc : ((2 ^ w : Nat) : Int) = 2 ^ w := by push_cast; ring
  omega

theorem decInt_toTwos (sg : Bool) (w : Nat) (n : Int) (hw : 0 < w)
    (h1 : (if sg then -(2 ^ (w - 1)) else 0) ≤ n)
    (h2 : n ≤ (if sg then 2 ^ (w - 1) - 1 else 2 ^ w - 1)) :
    decInt sg w (toTwos w n) = n := by
  have hsplit : (2 : Int) ^ w = 2 * 2 ^ (w - 1) := by
    conv_lhs => rw [← Nat.sub_add_cancel hw]
    rw [pow_succ]
    ring
  have hhalfpos : (0 : Int) < 2 ^ (w - 1) := by positivity
  have hchalf : ((2 ^ (w - 1) : Nat) : Int) = 2 ^ (w - 1) := by push_cast; ring
  cases sg with
  | false =>
    simp only [if_false, Bool.false_eq_true] at h1 h2 ⊢
    have hlt : n < 2 ^ w := by omega
    simp only [decInt, Bool.false_eq_true, if_false, toTwos,
      Int.emod_eq_of_lt h1 hlt]
    exact Int.toNat_of_nonneg h1
  | true =>
    simp only [if_true] at h1 h2
    simp only [decInt, if_true, fromTwos, toTwos]
    by_cases hn : 0 ≤ n
    · have hlt : n < 2 ^ w := by omega
      rw [Int.emod_eq_of_lt hn hlt]
      have hmlt : n.toNat < 2 ^ (w - 1) := by omega
      rw [if_pos hmlt]
      omega
    · push_neg at hn
      have key : n % 2 ^ w = n + 2 ^ w := by
        have e1 : (n + 2 ^ w * 1) % 2 ^ w = n % 2 ^ w := Int.add_mul_emod_self_left n (2 ^ w) 1
      -- the representative of a negative in-range value is n + 2^w
        have e2 : (n + 2 ^ w) % 2 ^ w = n + 2 ^ w :=
          Int.emod_eq_of_lt (by omega) (by omega)
        calc n % 2 ^ w = (n + 2 ^ w * 1) % 2 ^ w := by rw [← e1]
        _ = n + 2 ^ w := by rw [mul_one, e2]
      rw [key]
      have hge : ¬((n + 2 ^ w).toNat < 2 ^ (w - 1)) := by omega
      rw [if_neg hge]
      omega

theorem char_valid_nat (c : Char) :
    c.toNat < 0xD800 ∨ (0xE000 ≤ c.toNat ∧ c.toNat < 0x110000) := by
  rcases c.valid with h | h
  · exact Or.inl h
  · exact Or.inr h

theorem utf8DecStep_one (b0 : Nat) (rest : List Nat) (h0 : b0 < 0x80) :
    utf8DecStep b0 rest = some (b0, rest) := by
  simp [utf8DecStep, h0]

theorem utf8DecStep_two (b0 b1 : Nat) (rest : List Nat)
    (h0 : ¬b0 < 0x80) (h1 : ¬b0 < 0xC2) (h2 : b0 < 0xE0) (hc : isCont b1 = true) :
    utf8DecStep b0 (b1 :: rest) = some ((b0 - 0xC0) * 64 + (b1 - 0x80), rest) := by
  simp [utf8DecStep, h0, h1, h2, hc]

theorem utf8DecStep_three (b0 b1 b2 : Nat) (rest : List Nat)
    (h0 : ¬b0 < 0x80) (h1 : ¬b0 < 0xC2) (h2 : ¬b0 < 0xE0) (h3 : b0 < 0xF0)
    (hc1 : isCont b1 = true) (hc2 : isCont b2 = true)
    (hlo : ¬(b0 - 0xE0) * 4096 + (b1 - 0x80) * 64 + (b2 - 0x80) < 0x800)
    (hsur : ¬(0xD800 ≤ (b0 - 0xE0) * 4096 + (b1 - 0x80) * 64 + (b2 - 0x80) ∧
      (b0 - 0xE0) * 4096 + (b1 - 0x80) * 64 + (b2 - 0x80) < 0xE000)) :
    utf8DecStep b0 (b1 :: b2 :: rest) =
      some ((b0 - 0xE0) * 4096 + (b1 - 0x80) * 64 + (b2 - 0x80), rest) := by
  simp [utf8DecStep, h0, h1, h2, h3, hc1, hc2, hlo, hsur]

theorem utf8DecStep_four (b0 b1 b2 b3 : Nat) (rest : List Nat)
    (h0 : ¬b0 < 0x80) (h1 : ¬b0 < 0xC2) (h2 : ¬b0 < 0xE0) (h3 : ¬b0 < 0xF0)
    (h4 : b0 < 0xF5)
    (hc1 : isCont b1 = true) (hc2 : isCont b2 = true) (hc3 : isCont b3 = true)
    (hlo : ¬(b0 - 0xF0) * 262144 + (b1 - 0x80) * 4096 + (b2 - 0x80) * 64 + (b3 - 0x80) <
      0x10000)
    (hhi : ¬0x110000 ≤ (b0 - 0xF0) * 262144 + (b1 - 0x80) * 4096 + (b2 - 0x80) * 64 +
      (b3 - 0x80)) :
    utf8DecStep b0 (b1 :: b2 :: b3 :: rest) =
      some ((b0 - 0xF0) * 262144 + (b1 - 0x80) * 4096 + (b2 - 0x80) * 64 + (b3 - 0x80),
        rest) := by
  simp [utf8DecStep, h0, h1, h2, h3, h4, hc1, hc2, hc3, hlo, hhi]

theorem utf8DecFuel_nil (fuel : Nat) : utf8DecFuel fuel [] = some [] := by
  cases fuel <;> rfl

theorem utf8DecFuel_flatMap (cs : List Char) :
    ∀ fuel : Nat, (cs.flatMap charUtf8).length ≤ fuel →
    utf8DecFuel fuel (cs.flatMap charUtf8) = some cs := by
  induction cs with
  | nil =>
    intro fuel _
    exact utf8DecFuel_nil fuel
  | cons c cs ih =>
    intro fuel hf
    rw [List.flatMap_cons] at hf ⊢
    have hv := char_valid_nat c
    have hofn := Char.ofNat_toNat c
    by_cases h1 : c.toNat < 0x80
    · have hb : charUtf8 c = [c.toNat] := by simp [charUtf8, h1]
      rw [hb] at hf ⊢
      simp only [List.cons_append, List.nil_append, List.length_cons] at hf ⊢
      obtain ⟨f, rfl⟩ : ∃ f, fuel = f + 1 := ⟨fuel - 1, by omega⟩
      have hrec := ih f (by omega)
      simp only [utf8DecFuel, utf8DecStep_one _ _ h1, hrec, hofn]
    · by_cases h2 : c.toNat < 0x800
      · have hb : charUtf8 c = [0xC0 + c.toNat / 64, 0x80 + c.toNat % 64] := by
          simp [charUtf8, h1, h2]
        rw [hb] at hf ⊢
        simp only [List.cons_append, List.nil_append, List.length_cons] at hf ⊢
        obtain ⟨f, rfl⟩ : ∃ f, fuel = f + 1 := ⟨fuel - 1, by omega⟩
        have hrec := ih f (by omega)
        have hc1 : isCont (0x80 + c.toNat % 64) = true := by
          simp only [isCont, Bool.and_eq_true, decide_eq_true_eq]
          omega
        have ev : (0xC0 + c.toNat / 64 - 0xC0) * 64 + (0x80 + c.toNat % 64 - 0x80) =
            c.toNat := by omega
        simp only [utf8DecFuel,
          utf8DecStep_two (0xC0 + c.toNat / 64) (0x80 + c.toNat % 64) _
            (by omega) (by omega) (by omega) hc1, hrec, ev, hofn]
      · by_cases h3 : c.toNat < 0x10000
        · have hb : charUtf8 c =
              [0xE0 + c.toNat / 4096, 0x80 + c.toNat / 64 % 64, 0x80 + c.toNat % 64] := by
            simp [charUtf8, h1, h2, h3]
          rw [hb] at hf ⊢
          simp only [List.cons_append, List.nil_append, List.length_cons] at hf ⊢
          obtain ⟨f, rfl⟩ : ∃ f, fuel = f + 1 := ⟨fuel - 1, by omega⟩
          have hrec := ih f (by omega)
          have hc1 : isCont (0x80 + c.toNat / 64 % 64) = true := by
            simp only [isCont, Bool.and_eq_true, decide_eq_true_eq]
            omega
          have hc2 : isCont (0x80 + c.toNat % 64) = true := by
            simp only [isCont, Bool.and_eq_true, decide_eq_true_eq]
            omega
          have ev : (0xE0 + c.toNat / 4096 - 0xE0) * 4096 +
              (0x80 + c.toNat / 64 % 64 - 0x80) * 64 + (0x80 + c.toNat % 64 - 0x80) =
              c.toNat := by omega
          simp only [utf8DecFuel,
            utf8DecStep_three (0xE0 + c.toNat / 4096) (0x80 + c.toNat / 64 % 64)
              (0x80 + c.toNat % 64) _ (by omega) (by omega) (by omega) (by omega) hc1 hc2
              (by omega) (by rcases hv with hv1 | hv1 <;> omega), hrec, ev, hofn]
        · have h4 : c.toNat < 0x110000 := by rcases hv with hv1 | hv1 <;> omega
          have hb : charUtf8 c =
              [0xF0 + c.toNat / 262144, 0x80 + c.toNat / 4096 % 64,
               0x80 + c.toNat / 64 % 64, 0x80 + c.toNat % 64] := by
            simp [charUtf8, h1, h2, h3]
          rw [hb] at hf ⊢
          simp only [List.cons_append, List.nil_append, List.length_cons] at hf ⊢
          obtain ⟨f, rfl⟩ : ∃ f, fuel = f + 1 := ⟨fuel - 1, by omega⟩
          have hrec := ih f (by omega)
          have hc1 : isCont (0x80 + c.toNat / 4096 % 64) = true := by
            simp only [isCont, Bool.and_eq_true, decide_eq_true_eq]
            omega
          have hc2 : isCont (0x80 + c.toNat / 64 % 64) = true := by
            simp only [isCont, Bool.and_eq_true, decide_eq_true_eq]
            omega
          have hc3 : isCont (0x80 + c.toNat % 64) = true := by
            simp only [isCont, Bool.and_eq_true, decide_eq_true_eq]
            omega
          have ev : (0xF0 + c.toNat / 262144 - 0xF0) * 262144 +
              (0x80 + c.toNat / 4096 % 64 - 0x80) * 4096 +
              (0x80 + c.toNat / 64 % 64 - 0x80) * 64 + (0x80 + c.toNat % 64 - 0x80) =
              c.toNat := by omega
          simp only [utf8DecFuel,
            utf8DecStep_four (0xF0 + c.toNat / 262144) (0x80 + c.toNat / 4096 % 64)
              (0x80 + c.toNat / 64 % 64) (0x80 + c.toNat % 64) _ (by omega) (by omega)
              (by omega) (by omega) (by omega) hc1 hc2 hc3 (by omega) (by omega),
            hrec, ev, hofn]

theorem utf8Dec_utf8Bytes (s : String) : utf8Dec (utf8Bytes s) = some s.data := by
  rw [utf8Dec, utf8Bytes]
  exact utf8DecFuel_flatMap s.data _ le_rfl

theorem decInt_toTwos_s (w : Nat) (n : Int) (hw : 0 < w)
    (h1 : -(2 ^ (w - 1)) ≤ n) (h2 : n ≤ 2 ^ (w - 1) - 1) :
    decInt true w (toTwos w n) = n :=
  decInt_toTwos true w n hw (by simpa) (by simpa)

theorem decInt_toTwos_u (w : Nat) (n : Int) (hw : 0 < w)
    (h1 : 0 ≤ n) (h2 : n ≤ 2 ^ w - 1) :
    decInt false w (toTwos w n) = n :=
  decInt_toTwos false w n hw (by simpa) (by simpa)

theorem encodePrim_decodePrim (p : Prim) (j : Json) (bs rest : List Nat)
    (h : encodePrim p j = .ok bs) :
    decodePrim p (bs ++ rest) = some (renderPrimJson p j, rest) := by
  cases p <;> cases j <;> simp only [encodePrim, reduceCtorEq] at h
  case i8.num n =>
    split_ifs at h with hc
    norm_num [Prim.lo, Prim.hi, Prim.signed, Prim.bits] at hc
    injection h with hbs
    subst hbs
    simp only [decodePrim, renderPrimJson, Prim.bits, Prim.signed, Nat.reduceDiv,
      leDecode_leBytes 1 (toTwos 8 n) (by have := toTwos_lt 8 n; omega) rest,
      decInt_toTwos_s 8 n (by norm_num) (by omega) (by omega)]
  case i16.num n =>
    split_ifs at h with hc
    norm_num [Prim.lo, Prim.hi, Prim.signed, Prim.bits] at hc
    injection h with hbs
    subst hbs
    simp only [decodePrim, renderPrimJson, Prim.bits, Prim.signed, Nat.reduceDiv,
      leDecode_leBytes 2 (toTwos 16 n) (by have := toTwos_lt 16 n; omega) rest,
      decInt_toTwos_s 16 n (by norm_num) (by omega) (by omega)]
  case i32.num n =>
    split_ifs at h with hc
    norm_num [Prim.lo, Prim.hi, Prim.signed, Prim.bits] at hc
    injection h with hbs
    subst hbs
    simp only [decodePrim, renderPrimJson, Prim.bits, Prim.signed, Nat.reduceDiv,
      leDecode_leBytes 4 (toTwos 32 n) (by have := toTwos_lt 32 n; omega) rest,
      decInt_toTwos_s 32 n (by norm_num) (by omega) (by omega)]
  case i64.num n =>
    split_ifs at h with hc
    norm_num [Prim.lo, Prim.hi, Prim.signed, Prim.bits] at hc
    injection h with hbs
    subst hbs
    simp only [decodePrim, renderPrimJson, Prim.bits, Prim.signed, Nat.reduceDiv,
      leDecode_leBytes 8 (toTwos 64 n) (by have := toTwos_lt 64 n; omega) rest,
      decInt_toTwos_s 64 n (by norm_num) (by omega) (by omega)]
  case i128.num n =>
    split_ifs at h with hc
    norm_num [Prim.lo, Prim.hi, Prim.signed, Prim.bits] at hc
    injection h with hbs
    subst hbs
    simp only [decodePrim, renderPrimJson, Prim.bits, Prim.signed, Nat.reduceDiv,
      leDecode_leBytes 16 (toTwos 128 n) (by have := toTwos_lt 128 n; omega) rest,
      decInt_toTwos_s 128 n (by norm_num) (by omega) (by omega)]
  case u8.num n =>
    split_ifs at h with hc
    norm_num [Prim.lo, Prim.hi, Prim.signed, Prim.bits] at hc
    injection h with hbs
    subst hbs
    simp only [decodePrim, renderPrimJson, Prim.bits, Prim.signed, Nat.reduceDiv,
      leDecode_leBytes 1 (toTwos 8 n) (by have := toTwos_lt 8 n; omega) rest,
      decInt_toTwos_u 8 n (by norm_num) (by omega) (by omega)]
  case u16.num n =>
    split_ifs at h with hc
    norm_num [Prim.lo, Prim.hi, Prim.signed, Prim.bits] at hc
    injection h with hbs
    subst hbs
    simp only [decodePrim, renderPrimJson, Prim.bits, Prim.signed, Nat.reduceDiv,
      leDecode_leBytes 2 (toTwos 16 n) (by have := toTwos_lt 16 n; omega) rest,
      decInt_toTwos_u 16 n (by norm_num) (by omega) (by omega)]
  case u32.num n =>
    split_ifs at h with hc
    norm_num [Prim.lo, Prim.hi, Prim.signed, Prim.bits] at hc
    injection h with hbs
    subst hbs
    simp only [decodePrim, renderPrimJson, Prim.bits, Prim.signed, Nat.reduceDiv,
      leDecode_leBytes 4 (toTwos 32 n) (by have := toTwos_lt 32 n; omega) rest,
      decInt_toTwos_u 32 n (by norm_num) (by omega) (by omega)]
  case u64.num n =>
    split_ifs at h with hc
    norm_num [Prim.lo, Prim.hi, Prim.signed, Prim.bits] at hc
    injection h with hbs
    subst hbs
    simp only [decodePrim, renderPrimJson, Prim.bits, Prim.signed, Nat.reduceDiv,
      leDecode_leBytes 8 (toTwos 64 n) (by have := toTwos_lt 64 n; omega) rest,
      decInt_toTwos_u 64 n (by norm_num) (by omega) (by omega)]
  case u128.num n =>
    split_ifs at h with hc
    norm_num [Prim.lo, Prim.hi, Prim.signed, Prim.bits] at hc
    injection h with hbs
    subst hbs
    simp only [decodePrim, renderPrimJson, Prim.bits, Prim.signed, Nat.reduceDiv,
      leDecode_leBytes 16 (toTwos 128 n) (by have := toTwos_lt 128 n; omega) rest,
      decInt_toTwos_u 128 n (by norm_num) (by omega) (by omega)]
  case bool.bool b =>
    injection h with hbs
    subst hbs
    cases b <;> simp [decodePrim, renderPrimJson]
  case str.str s =>
    split_ifs at h with hc
    injection h with hbs
    subst hbs
    have h1 : ((utf8Bytes s ++ rest).take (utf8Bytes s).length) = utf8Bytes s :=
      List.take_left _ _
    have h2 : ((utf8Bytes s ++ rest).drop (utf8Bytes s).length) = rest :=
      List.drop_left _ _
    have h3 : (utf8Bytes s).length ≤ (utf8Bytes s ++ rest).length := by simp
    simp only [decodePrim, List.append_assoc,
      leDecode_leBytes 4 (utf8Bytes s).length (by omega) (utf8Bytes s ++ rest),
      if_pos h3, h1, h2, utf8Dec_utf8Bytes s, renderPrimJson]

theorem mapM_decodeMany
    (enc : Json → Except CoerceErr (List Nat))
    (dec : List Nat → Option (String × List Nat)) (rnd : Json → String)
    (hstep : ∀ j bs rest, enc j = .ok bs → dec (bs ++ rest) = some (rnd j, rest)) :
    ∀ (xs : List Json) (parts : List (List Nat)) (rest : List Nat),
      xs.mapM enc = .ok parts →
      decodeMany dec xs.length (parts.flatten ++ rest) = some (xs.map rnd, rest) := by
  intro xs
  induction xs with
  | nil =>
    intro parts rest h
    injection h with hp
    subst hp
    rfl
  | cons x xs ih =>
    intro parts rest h
    rw [List.mapM_cons] at h
    cases henc : enc x with
    | error e =>
      rw [henc] at h
      exact Except.noConfusion h
    | ok b =>
      rw [henc] at h
      cases hrest : xs.mapM enc with
      | error e =>
        rw [hrest] at h
        exact Except.noConfusion h
      | ok bsP =>
        rw [hrest] at h
        have h2 : Except.ok (b :: bsP) = Except.ok parts := h
        injection h2 with h3
        subst h3
        simp only [List.length_cons, List.flatten_cons, List.append_assoc, decodeMany,
          hstep x b _ henc, ih bsP rest hrest, List.map_cons]

theorem encodeListBy_decodeVec (p : Prim) (j : Json) (bs rest : List Nat)
    (h : encodeListBy (encodePrim p) j = .ok bs) :
    decodeVec p (bs ++ rest) = some (canonicalRender (.vec p) j, rest) := by
  cases j <;> simp only [encodeListBy, reduceCtorEq] at h
  case arr xs =>
  cases hmap : xs.mapM (encodePrim p) with
  | error e =>
    rw [hmap] at h
    exact Except.noConfusion h
  | ok parts =>
    rw [hmap] at h
    split_ifs at h with hlen
    injection h with hbs
    subst hbs
    simp only [decodeVec, canonicalRender, List.append_assoc,
      leDecode_leBytes 4 xs.length (by omega) (parts.flatten ++ rest),
      mapM_decodeMany (encodePrim p) (decodePrim p) (renderPrimJson p)
        (fun j bs r hj => encodePrim_decodePrim p j bs r hj) xs parts rest hmap]

theorem coerceBytesFixed_ok (xs : List Json) :
    ∀ (n : Nat) (bs : List Nat), coerceBytesFixed n xs = .ok bs →
      bs.length = n ∧ bs.map renderByte = xs.map renderByteJson := by
  induction xs with
  | nil =>
    intro n bs h
    cases n with
    | zero =>
      injection h with hbs
      subst hbs
      exact ⟨rfl, rfl⟩
    | succ k => simp [coerceBytesFixed] at h
  | cons x xs ih =>
    intro n bs h
    cases n with
    | zero => simp [coerceBytesFixed] at h
    | succ k =>
      cases hx : coerceByte x with
      | error e => simp [coerceBytesFixed, hx] at h
      | ok b =>
        cases hrest : coerceBytesFixed k xs with
        | error e => simp [coerceBytesFixed, hx, hrest] at h
        | ok bs2 =>
          simp only [coerceBytesFixed, hx, hrest, Except.ok.injEq] at h
          subst h
          obtain ⟨hl, hm⟩ := ih k bs2 hrest
          refine ⟨by simp [hl], ?_⟩
          simp only [List.map_cons, hm, List.cons.injEq, and_true]
          cases x <;> simp only [coerceByte, reduceCtorEq] at hx
          case num m =>
            split_ifs at hx with hcm
            injection hx with hb
            subst hb
            simp only [renderByteJson, renderByte]
            have hmn : ((m.toNat : Nat) : Int) = m := Int.toNat_of_nonneg hcm.1
            rw [hmn]

theorem encodeArr_decodeArr (n : Nat) (j : Json) (bs rest : List Nat)
    (h : EncTy.run (.arr n) j = .ok bs) :
    decodeArr n (bs ++ rest) = some (canonicalRender (.arr n) j, rest) := by
  cases j <;> simp only [EncTy.run, reduceCtorEq] at h
  case arr xs =>
  obtain ⟨hl, hm⟩ := coerceBytesFixed_ok xs n bs h
  simp only [decodeArr, canonicalRender]
  rw [if_pos (by rw [List.length_append]; omega), List.take_left' hl,
    List.drop_left' hl, hm]

theorem lookupDecoder_cases (d : String) (t : DecTy) (h : lookupDecoder d = some t) :
    (∃ p, t = .prim p ∧ d = p.name) ∨
    (∃ p, t = .vec p ∧ d = "Vec<" ++ p.name ++ ">") ∨
    (t = .arr 32 ∧ d = "[u8;32]") ∨ (t = .arr 64 ∧ d = "[u8;64]") := by
  unfold lookupDecoder at h
  cases h1 : Prim.primList.find? (fun p => p.name == d) with
  | some p =>
    rw [h1] at h
    simp only [Option.map_some', Option.some_orElse, Option.some.injEq] at h
    have h5 := List.find?_some h1
    exact Or.inl ⟨p, h.symm, (beq_iff_eq.mp h5).symm⟩
  | none =>
    rw [h1] at h
    simp only [Option.map_none', Option.none_orElse] at h
    cases h2 : Prim.primList.find? (fun p => "Vec<" ++ p.name ++ ">" == d) with
    | some p =>
      rw [h2] at h
      simp only [Option.map_some', Option.some_orElse, Option.some.injEq] at h
      have h5 := List.find?_some h2
      exact Or.inr (Or.inl ⟨p, h.symm, (beq_iff_eq.mp h5).symm⟩)
    | none =>
      rw [h2] at h
      simp only [Option.map_none', Option.none_orElse] at h
      by_cases h3 : d = "[u8;32]"
      · subst h3
        have h6 : some (DecTy.arr 32) = some t := h
        injection h6 with h7
        exact Or.inr (Or.inr (Or.inl ⟨h7.symm, rfl⟩))
      · have hb3 : (d == "[u8;32]") = false := beq_eq_false_iff_ne.mpr h3
        rw [hb3] at h
        by_cases h4 : d = "[u8;64]"
        · subst h4
          have h6 : some (DecTy.arr 64) = some t := h
          injection h6 with h7
          exact Or.inr (Or.inr (Or.inr ⟨h7.symm, rfl⟩))
        · have hb4 : (d == "[u8;64]") = false := beq_eq_false_iff_ne.mpr h4
          rw [hb4] at h
          exact Option.noConfusion h

theorem serialize_decode_rt (dt : String) (t : DecTy) (j : Json) (bs rest : List Nat)
    (hdec : lookupDecoder (stripSpaces dt) = some t)
    (henc : serialize_call_arguments j dt = .ok bs) :
    t.run (bs ++ rest) = some (canonicalRender t j, rest) := by
  unfold serialize_call_arguments at henc
  rcases lookupDecoder_cases _ _ hdec with ⟨p, rfl, hd⟩ | ⟨p, rfl, hd⟩ | ⟨rfl, hd⟩ | ⟨rfl, hd⟩
  · have hn : normalizeSliceType (stripSpaces dt) = stripSpaces dt := by
      rw [hd]; cases p <;> decide
    have he : lookupEncoder (stripSpaces dt) = some (.prim p) := by
      rw [hd]; cases p <;> decide
    rw [hn, he] at henc
    replace henc : (match EncTy.run (.prim p) j with
      | Except.ok b2 => (Except.ok b2 : Except SerErr (List Nat))
      | Except.error e => Except.error (SerErr.failToSerializeCallArgument e)) =
        Except.ok bs := henc
    cases hr : EncTy.run (.prim p) j with
    | error e => rw [hr] at henc; exact Except.noConfusion henc
    | ok b2 =>
      rw [hr] at henc
      have h7 : b2 = bs := by
        injection (show (Except.ok b2 : Except SerErr (List Nat)) = .ok bs from henc)
      subst h7
      exact encodePrim_decodePrim p j b2 rest hr
  · have hn : normalizeSliceType (stripSpaces dt) = stripSpaces dt := by
      rw [hd]; cases p <;> decide
    have he : lookupEncoder (stripSpaces dt) = some (.vec p) := by
      rw [hd]; cases p <;> decide
    rw [hn, he] at henc
    replace henc : (match EncTy.run (.vec p) j with
      | Except.ok b2 => (Except.ok b2 : Except SerErr (List Nat))
      | Except.error e => Except.error (SerErr.failToSerializeCallArgument e)) =
        Except.ok bs := henc
    cases hr : EncTy.run (.vec p) j with
    | error e => rw [hr] at henc; exact Except.noConfusion henc
    | ok b2 =>
      rw [hr] at henc
      have h7 : b2 = bs := by
        injection (show (Except.ok b2 : Except SerErr (List Nat)) = .ok bs from henc)
      subst h7
      exact encodeListBy_decodeVec p j b2 rest hr
  · have hn : normalizeSliceType (stripSpaces dt) = "Array<u8,32>" := by
      rw [hd]; decide
    have he : lookupEncoder "Array<u8,32>" = some (.arr 32) := by decide
    rw [hn, he] at henc
    replace henc : (match EncTy.run (.arr 32) j with
      | Except.ok b2 => (Except.ok b2 : Except SerErr (List Nat))
      | Except.error e => Except.error (SerErr.failToSerializeCallArgument e)) =
        Except.ok bs := henc
    cases hr : EncTy.run (.arr 32) j with
    | error e => rw [hr] at henc; exact Except.noConfusion henc
    | ok b2 =>
      rw [hr] at henc
      have h7 : b2 = bs := by
        injection (show (Except.ok b2 : Except SerErr (List Nat)) = .ok bs from henc)
      subst h7
      exact encodeArr_decodeArr 32 j b2 rest hr
  · have hn : normalizeSliceType (stripSpaces dt) = "Array<u8,64>" := by
      rw [hd]; decide
    have he : lookupEncoder "Array<u8,64>" = some (.arr 64) := by decide
    rw [hn, he] at henc
    replace henc : (match EncTy.run (.arr 64) j with
      | Except.ok b2 => (Except.ok b2 : Except SerErr (List Nat))
      | Except.error e => Except.error (SerErr.failToSerializeCallArgument e)) =
        Except.ok bs := henc
    cases hr : EncTy.run (.arr 64) j with
    | error e => rw [hr] at henc; exact Except.noConfusion henc
    | ok b2 =>
      rw [hr] at henc
      have h7 : b2 = bs := by
        injection (show (Except.ok b2 : Except SerErr (List Nat)) = .ok bs from henc)
      subst h7
      exact encodeArr_decodeArr 64 j b2 rest hr

theorem leDecode_extend (k : Nat) :
    ∀ (bs : List Nat) (m : Nat) (rem ext : List Nat), leDecode k bs = some (m, rem) →
      leDecode k (bs ++ ext) = some (m, rem ++ ext) := by
  induction k with
  | zero =>
    intro bs m rem ext h
    injection h with h2
    injection h2 with h3 h4
    subst h3
    subst h4
    rfl
  | succ k ih =>
    intro bs m rem ext h
    cases bs with
    | nil => exact Option.noConfusion h
    | cons b bs2 =>
      simp only [leDecode] at h
      cases hld : leDecode k bs2 with
      | none => rw [hld] at h; exact Option.noConfusion h
      | some pr =>
        obtain ⟨m2, r2⟩ := pr
        rw [hld] at h
        replace h : some (b + 256 * m2, r2) = some (m, rem) := h
        injection h with h2
        injection h2 with h3 h4
        subst h3
        subst h4
        show (match leDecode k (bs2 ++ ext) with
          | some (m, rest) => some (b + 256 * m, rest)
          | none => none) = some (b + 256 * m2, r2 ++ ext)
        rw [ih bs2 m2 r2 ext hld]

theorem leDecodeRender_extend (k : Nat) (f : Nat → String) (bs : List Nat) (r : String)
    (rem ext : List Nat)
    (h : (match leDecode k bs with
          | some (m, rest) => some (f m, rest)
          | none => none) = some (r, rem)) :
    (match leDecode k (bs ++ ext) with
     | some (m, rest) => some (f m, rest)
     | none => none) = some (r, rem ++ ext) := by
  cases hld : leDecode k bs with
  | none => rw [hld] at h; exact Option.noConfusion h
  | some pr =>
    obtain ⟨m, rest⟩ := pr
    rw [hld] at h
    injection h with h2
    injection h2 with h3 h4
    subst h3
    subst h4
    rw [leDecode_extend k bs m rest ext hld]

theorem decodePrim_extend (p : Prim) (bs : List Nat) (r : String) (rem ext : List Nat)
    (h : decodePrim p bs = some (r, rem)) :
    decodePrim p (bs ++ ext) = some (r, rem ++ ext) := by
  cases p
  case bool =>
    simp only [decodePrim] at h ⊢
    rcases bs with _ | ⟨(_ | _ | b), bs2⟩ <;>
      first
        | exact Option.noConfusion h
        | (injection h with h2
           injection h2 with h3 h4
           subst h3
           subst h4
           rfl)
  case str =>
    simp only [decodePrim] at h ⊢
    cases hld : leDecode 4 bs with
    | none => rw [hld] at h; exact Option.noConfusion h
    | some pr =>
      obtain ⟨len, r1⟩ := pr
      rw [hld] at h
      replace h : (if len ≤ r1.length then
          match utf8Dec (r1.take len) with
          | some cs => some (renderString (String.mk cs), r1.drop len)
          | none => none
        else none) = some (r, rem) := h
      split_ifs at h with hlen
      cases hu : utf8Dec (r1.take len) with
      | none => rw [hu] at h; exact Option.noConfusion h
      | some cs =>
        rw [hu] at h
        replace h : some (renderString (String.mk cs), r1.drop len) = some (r, rem) := h
        injection h with h2
        injection h2 with h3 h4
        subst h3
        subst h4
        rw [leDecode_extend 4 bs len r1 ext hld]
        show (if len ≤ (r1 ++ ext).length then
            match utf8Dec ((r1 ++ ext).take len) with
            | some cs2 => some (renderString (String.mk cs2), (r1 ++ ext).drop len)
            | none => none
          else none) = some (renderString (String.mk cs), r1.drop len ++ ext)
        rw [if_pos (by rw [List.length_append]; omega),
          List.take_append_of_le_length hlen, hu,
          List.drop_append_of_le_length hlen]
  all_goals
    exact leDecodeRender_extend _ _ bs r rem ext h

theorem decodeMany_extend (dec : List Nat → Option (String × List Nat))
    (hdec : ∀ bs r rem ext, dec bs = some (r, rem) → dec (bs ++ ext) = some (r, rem ++ ext)) :
    ∀ (count : Nat) (bs : List Nat) (ss : List String) (rem ext : List Nat),
      decodeMany dec count bs = some (ss, rem) →
      decodeMany dec count (bs ++ ext) = some (ss, rem ++ ext) := by
  intro count
  induction count with
  | zero =>
    intro bs ss rem ext h
    injection h with h2
    injection h2 with h3 h4
    subst h3
    subst h4
    rfl
  | succ k ih =>
    intro bs ss rem ext h
    simp only [decodeMany] at h ⊢
    cases hd1 : dec bs with
    | none => rw [hd1] at h; exact Option.noConfusion h
    | some pr =>
      obtain ⟨s1, r1⟩ := pr
      rw [hd1] at h
      replace h : (match decodeMany dec k r1 with
        | some (ss2, r2) => some (s1 :: ss2, r2)
        | none => none) = some (ss, rem) := h
      cases hd2 : decodeMany dec k r1 with
      | none => rw [hd2] at h; exact Option.noConfusion h
      | some pr2 =>
        obtain ⟨ss2, r2⟩ := pr2
        rw [hd2] at h
        replace h : some (s1 :: ss2, r2) = some (ss, rem) := h
        injection h with h2
        injection h2 with h3 h4
        subst h3
        subst h4
        rw [hdec bs s1 r1 ext hd1]
        show (match decodeMany dec k (r1 ++ ext) with
          | some (ss2, r3) => some (s1 :: ss2, r3)
          | none => none) = some (s1 :: ss2, r2 ++ ext)
        rw [ih r1 ss2 r2 ext hd2]

theorem DecTy.run_extend (t : DecTy) (bs : List Nat) (r : String) (rem ext : List Nat)
    (h : t.run bs = some (r, rem)) : t.run (bs ++ ext) = some (r, rem ++ ext) := by
  cases t with
  | prim p => exact decodePrim_extend p bs r rem ext h
  | vec p =>
    simp only [DecTy.run, decodeVec] at h ⊢
    cases hld : leDecode 4 bs with
    | none => rw [hld] at h; exact Option.noConfusion h
    | some pr =>
      obtain ⟨count, r1⟩ := pr
      rw [hld] at h
      replace h : (match decodeMany (decodePrim p) count r1 with
        | some (ss, r2) => some (renderList ss, r2)
        | none => none) = some (r, rem) := h
      cases hdm : decodeMany (decodePrim p) count r1 with
      | none => rw [hdm] at h; exact Option.noConfusion h
      | some pr2 =>
        obtain ⟨ss, r2⟩ := pr2
        rw [hdm] at h
        replace h : some (renderList ss, r2) = some (r, rem) := h
        injection h with h2
        injection h2 with h3 h4
        subst h3
        subst h4
        rw [leDecode_extend 4 bs count r1 ext hld]
        show (match decodeMany (decodePrim p) count (r1 ++ ext) with
          | some (ss2, r3) => some (renderList ss2, r3)
          | none => none) = some (renderList ss, r2 ++ ext)
        rw [decodeMany_extend (decodePrim p) (decodePrim_extend p) count r1 ss r2 ext hdm]
  | arr n =>
    simp only [DecTy.run, decodeArr] at h ⊢
    split_ifs at h with hn
    injection h with h2
    injection h2 with h3 h4
    subst h3
    subst h4
    rw [if_pos (by rw [List.length_append]; omega)]
    rw [List.take_append_of_le_length hn, List.drop_append_of_le_length hn]

theorem from_json_args (L : List Json) :
    CallArguments.from_json (some (Json.obj [("arguments", Json.arr L)])) =
      .ok (L.filterMap extractArg) := rfl

theorem filterMap_extractArg_map (tvs : List (String × String)) :
    (tvs.map (fun tv =>
      Json.obj [("argument_type", Json.str tv.1), ("argument_value", Json.str tv.2)])).filterMap
        extractArg = tvs := by
  induction tvs with
  | nil => rfl
  | cons tv tvs ih =>
    simp only [List.map_cons, List.filterMap_cons]
    rw [show extractArg (Json.obj [("argument_type", Json.str tv.1),
      ("argument_value", Json.str tv.2)]) = some (tv.1, tv.2) from rfl, ih]

theorem coerceBytesFixed_len_ne (xs : List Json) :
    ∀ n : Nat, xs.length ≠ n → ∃ e, coerceBytesFixed n xs = .error e := by
  induction xs with
  | nil =>
    intro n hn
    cases n with
    | zero => exact absurd rfl hn
    | succ k => exact ⟨.invalidLength, rfl⟩
  | cons x xs ih =>
    intro n hn
    cases n with
    | zero => exact ⟨.trailingItems, rfl⟩
    | succ k =>
      cases hx : coerceByte x with
      | error e => exact ⟨e, by simp [coerceBytesFixed, hx]⟩
      | ok b =>
        obtain ⟨e, he⟩ := ih k (by simpa using hn)
        exact ⟨e, by simp [coerceBytesFixed, hx, he]⟩

/-- C1 (counterexample): the claimed round trip fails as stated — the value
`null` encodes against `Option<u8>` to the single presence byte `0`, but
decoding those bytes under the same type string fails with the
unsupported-type error, because `call_result_to_data_type` has no `Option`
entries in its dispatch table. -/
theorem c1_roundtrip_counterexample :
    serialize_call_arguments Json.null "Option<u8>" = .ok [0] ∧
    call_result_to_data_type [0] "Option<u8>" = .error .unsupportedType := by
  constructor <;> decide

/-- C1 (amended): the round trip holds exactly for the types the decode path
also supports — the primitives, `Vec<primitive>`, `[u8;32]` and `[u8;64]`:
for every such type string and every JSON value the encoder accepts, encoding
with `serialize_call_arguments` and then decoding the bytes with
`call_result_to_data_type` under the same type string succeeds and returns the
canonical debug rendering of the value. -/
theorem c1_roundtrip_amended (dt : String) (t : DecTy) (v : Json) (bs : List Nat)
    (hdec : lookupDecoder (stripSpaces dt) = some t)
    (henc : serialize_call_arguments v dt = .ok bs) :
    call_result_to_data_type bs dt = .ok (canonicalRender t v) := by
  have hrt := serialize_decode_rt dt t v bs [] hdec henc
  rw [List.append_nil] at hrt
  unfold call_result_to_data_type
  rw [hdec]
  show (match t.run bs with
    | some (s, _) => Except.ok s
    | none => (Except.error .failToConvert : Except DecErr String)) =
      .ok (canonicalRender t v)
  rw [hrt]

/-- C1 (witness). -/
theorem c1_roundtrip_amended_witness :
    call_result_to_data_type [255] "u8" = .ok "255" := by
  have h := c1_roundtrip_amended "u8" (.prim .u8) (.num 255) [255] (by decide) (by decide)
  exact h.trans (by decide)

/-- C2: `CallArguments::from_json` fails with the `InvalidJson` error exactly
when the document is not valid JSON (the external parse yields no value),
fails with `MissingFieldinJson "arguments"` exactly when the document parses
but has no top-level `"arguments"` array, and otherwise succeeds with exactly
the entries whose `"argument_type"` and `"argument_value"` are both string
fields, silently dropping the rest; in particular the document with one
well-formed entry and one entry lacking `"argument_value"` yields a list of
length exactly 1. -/
theorem c2_from_json_spec :
    (∀ p : Option Json,
      CallArguments.from_json p = .error .invalidJson ↔ p = none) ∧
    (∀ d : Json,
      CallArguments.from_json (some d) = .error (.missingFieldinJson "arguments") ↔
        (d.index "arguments").asArr = none) ∧
    (∀ (d : Json) (args : List Json), (d.index "arguments").asArr = some args →
      CallArguments.from_json (some d) = .ok (args.filterMap extractArg)) ∧
    CallArguments.from_json (some (Json.obj [("arguments", Json.arr
      [Json.obj [("argument_type", Json.str "u8"), ("argument_value", Json.str "1")],
       Json.obj [("argument_type", Json.str "u8")]])])) = .ok [("u8", "1")] := by
  refine ⟨?_, ?_, ?_, by decide⟩
  · intro p
    cases p with
    | none => simp [CallArguments.from_json]
    | some d =>
      simp only [CallArguments.from_json]
      cases h : (d.index "arguments").asArr <;> simp
  · intro d
    simp only [CallArguments.from_json]
    cases h : (d.index "arguments").asArr <;> simp
  · intro d args h
    simp only [CallArguments.from_json, h]

/-- C2 (witness). -/
theorem c2_from_json_spec_witness :
    CallArguments.from_json (some (Json.obj [("arguments", Json.arr [])])) = .ok [] :=
  c2_from_json_spec.2.2.1 (Json.obj [("arguments", Json.arr [])]) [] rfl

set_option maxRecDepth 8192 in
/-- C3 (counterexample): the unsupported-type error does not preserve the
original type string — for the unsupported input `"Foo"` both paths return
the unsupported-type error, whose rendered message
(`unsupportedTypeErrorString`, built by `error.rs` from the constant
`io::Error` in `parser.rs`) does not contain `"Foo"`; indeed the error is the
same for the distinct unsupported inputs `"Foo"` and `"Bar"`. -/
theorem c3_preserve_counterexample :
    serialize_call_arguments (Json.num 1) "Foo" = .error .unsupportedType ∧
    call_result_to_data_type [] "Foo" = .error .unsupportedType ∧
    ¬("Foo".data <:+: unsupportedTypeErrorString.data) ∧
    serialize_call_arguments (Json.num 1) "Foo" =
      serialize_call_arguments (Json.num 1) "Bar" := by
  refine ⟨by decide, by decide, by decide, by decide⟩

/-- C3 (amended): for every type-name string outside the supported table, both
the encode path and the decode path fail with the fixed unsupported-type
error — the same `ClientError::FailToConvertReturnDataToTargetType` value with
the constant message `unsupportedTypeErrorString` — independent of the input
string, which is therefore not preserved in the diagnostic. -/
theorem c3_unsupported_constant (dt : String)
    (h : stripSpaces dt ∉ encodeSupportedNames) :
    (∀ v : Json, serialize_call_arguments v dt = .error .unsupportedType) ∧
    (∀ bs : List Nat, call_result_to_data_type bs dt = .error .unsupportedType) := by
  constructor
  · intro v
    unfold serialize_call_arguments
    rw [(encode_unsupported_iff (stripSpaces dt)).mpr h]
  · intro bs
    unfold call_result_to_data_type
    have hd : stripSpaces dt ∉ decodeTableNames := fun hm => h (decode_names_subset _ hm)
    rw [(lookupDecoder_eq_none_iff _).mpr hd]

/-- C3 (witness). -/
theorem c3_unsupported_constant_witness :
    serialize_call_arguments (Json.num 1) "Vec<f32>" = .error .unsupportedType ∧
    call_result_to_data_type [7] "Vec<f32>" = .error .unsupportedType := by
  have h := c3_unsupported_constant "Vec<f32>" (by decide)
  exact ⟨h.1 _, h.2 _⟩

/-- C4 (counterexample): only the space character U+0020 is stripped
(`replace(" ", "")`), not all whitespace — two type strings differing only in
a tab character produce different results for the same value. -/
theorem c4_whitespace_counterexample :
    serialize_call_arguments (Json.arr [Json.num 1]) "Vec<\ti32>" =
      .error .unsupportedType ∧
    serialize_call_arguments (Json.arr [Json.num 1]) "Vec<i32>" =
      .ok [1, 0, 0, 0, 1, 0, 0, 0] := by
  constructor <;> decide

/-- C4 (amended): all U+0020 space characters (and only those) are stripped
before type dispatch, so two type strings equal after space-stripping produce
identical results for the same value on both the encode path and the decode
path. -/
theorem c4_space_insensitive (dt1 dt2 : String)
    (h : stripSpaces dt1 = stripSpaces dt2) :
    (∀ v : Json, serialize_call_arguments v dt1 = serialize_call_arguments v dt2) ∧
    (∀ bs : List Nat, call_result_to_data_type bs dt1 = call_result_to_data_type bs dt2) := by
  constructor
  · intro v
    unfold serialize_call_arguments
    rw [h]
  · intro bs
    unfold call_result_to_data_type
    rw [h]

/-- C4 (witness). -/
theorem c4_space_insensitive_witness :
    serialize_call_arguments (Json.arr [Json.num 1]) "Vec< i32 >" =
      serialize_call_arguments (Json.arr [Json.num 1]) "Vec<i32>" :=
  (c4_space_insensitive "Vec< i32 >" "Vec<i32>" (by decide)).1 _

/-- C5: every type-name string whose space-stripped form lies outside the
enumerated table (the 74 `serialize_call_args!` names plus the two bracket
forms `[u8;32]`/`[u8;64]` the regex rewrites into it) makes
`serialize_call_arguments` fail with the unsupported-type error for every
input value — there is no generic fallback. -/
theorem c5_unsupported_nesting (dt : String) (v : Json)
    (h : stripSpaces dt ∉ encodeSupportedNames) :
    serialize_call_arguments v dt = .error .unsupportedType := by
  unfold serialize_call_arguments
  rw [(encode_unsupported_iff (stripSpaces dt)).mpr h]

/-- C5 (witness): `Vec<Vec<Vec<bool>>>` is rejected, as in the repository's
own test. -/
theorem c5_unsupported_nesting_witness :
    serialize_call_arguments (Json.arr [Json.arr [Json.arr [Json.bool true]]])
      "Vec<Vec<Vec<bool>>>" = .error .unsupportedType :=
  c5_unsupported_nesting "Vec<Vec<Vec<bool>>>" _ (by decide)

/-- C6: encoding the literal `256` against `u8` fails with the out-of-range
serde error (wrapped in `ClientError::FailToSerializeCallArgument`) rather
than wrapping, while `255` encodes to the single byte `255`, which decodes
back to the string `"255"`. -/
theorem c6_numeric_boundary :
    serialize_call_arguments (Json.num 256) "u8" =
      .error (.failToSerializeCallArgument .outOfRange) ∧
    serialize_call_arguments (Json.num 255) "u8" = .ok [255] ∧
    call_result_to_data_type [255] "u8" = .ok "255" := by
  refine ⟨by decide, by decide, by decide⟩

/-- C7: the value `["sss", null]` encodes against `Vec<Option<String>>` to
exactly: 4-byte little-endian count 2, presence byte 1, 4-byte little-endian
length 3, the three bytes of `"sss"`, then presence byte 0. -/
theorem c7_concrete_encoding :
    serialize_call_arguments (Json.arr [Json.str "sss", Json.null])
      "Vec<Option<String>>" =
      .ok [2, 0, 0, 0, 1, 3, 0, 0, 0, 115, 115, 115, 0] := by
  decide

/-- C8: encoding a JSON array whose length is not exactly `n` against
`[u8;n]` (`n` ∈ {32, 64}) always fails with a
`ClientError::FailToSerializeCallArgument` validation error — the value is
never truncated or padded. -/
theorem c8_fixed_length_validation (xs : List Json) :
    (xs.length ≠ 32 → ∃ e, serialize_call_arguments (Json.arr xs) "[u8;32]" =
      .error (.failToSerializeCallArgument e)) ∧
    (xs.length ≠ 64 → ∃ e, serialize_call_arguments (Json.arr xs) "[u8;64]" =
      .error (.failToSerializeCallArgument e)) := by
  constructor
  · intro hne
    obtain ⟨e, he⟩ := coerceBytesFixed_len_ne xs 32 hne
    refine ⟨e, ?_⟩
    unfold serialize_call_arguments
    rw [show normalizeSliceType (stripSpaces "[u8;32]") = "Array<u8,32>" from by decide,
      show lookupEncoder "Array<u8,32>" = some (.arr 32) from by decide]
    show (match EncTy.run (.arr 32) (Json.arr xs) with
      | Except.ok b2 => (Except.ok b2 : Except SerErr (List Nat))
      | Except.error e2 => Except.error (.failToSerializeCallArgument e2)) =
        Except.error (.failToSerializeCallArgument e)
    rw [show EncTy.run (.arr 32) (Json.arr xs) = coerceBytesFixed 32 xs from rfl, he]
  · intro hne
    obtain ⟨e, he⟩ := coerceBytesFixed_len_ne xs 64 hne
    refine ⟨e, ?_⟩
    unfold serialize_call_arguments
    rw [show normalizeSliceType (stripSpaces "[u8;64]") = "Array<u8,64>" from by decide,
      show lookupEncoder "Array<u8,64>" = some (.arr 64) from by decide]
    show (match EncTy.run (.arr 64) (Json.arr xs) with
      | Except.ok b2 => (Except.ok b2 : Except SerErr (List Nat))
      | Except.error e2 => Except.error (.failToSerializeCallArgument e2)) =
        Except.error (.failToSerializeCallArgument e)
    rw [show EncTy.run (.arr 64) (Json.arr xs) = coerceBytesFixed 64 xs from rfl, he]

/-- C8 (witness): `[1,2,3]` against `[u8;32]` fails. -/
theorem c8_fixed_length_validation_witness :
    ∃ e, serialize_call_arguments (Json.arr [Json.num 1, Json.num 2, Json.num 3])
      "[u8;32]" = .error (.failToSerializeCallArgument e) :=
  (c8_fixed_length_validation [Json.num 1, Json.num 2, Json.num 3]).1 (by decide)

/-- C9: for every supported decode type string and every byte buffer beginning
with a complete valid encoding of a value of that type (the selected borsh
deserializer consumes the prefix exactly), `call_result_to_data_type`
succeeds on the extended buffer and returns the same rendering — trailing
unconsumed bytes are not an error. -/
theorem c9_trailing_bytes (dt : String) (t : DecTy) (pre rest : List Nat) (r : String)
    (hdec : lookupDecoder (stripSpaces dt) = some t)
    (hrun : t.run pre = some (r, [])) :
    call_result_to_data_type (pre ++ rest) dt = .ok r := by
  unfold call_result_to_data_type
  rw [hdec]
  have hext := DecTy.run_extend t pre r [] rest hrun
  rw [List.nil_append] at hext
  show (match t.run (pre ++ rest) with
    | some (s, _) => Except.ok s
    | none => (Except.error .failToConvert : Except DecErr String)) = .ok r
  rw [hext]

/-- C9 (witness): the byte `7` decodes as `u8` to `"7"` even with two
trailing bytes. -/
theorem c9_trailing_bytes_witness :
    call_result_to_data_type ([7] ++ [9, 9]) "u8" = .ok "7" :=
  c9_trailing_bytes "u8" (.prim .u8) [7] [9, 9] "7" (by decide) (by decide)

/-- C10: an `"arguments"` entry whose `"argument_type"` or `"argument_value"`
is not a string field (missing, or present with a non-string value) is
silently dropped, leaving the result exactly as if the entry were absent; and
a document whose entries are all well-formed yields exactly its ordered list
of (type, value) pairs. -/
theorem c10_nonstring_fields_dropped :
    (∀ (pre post : List Json) (e : Json),
      ((e.index "argument_type").asStr = none ∨ (e.index "argument_value").asStr = none) →
      CallArguments.from_json
          (some (Json.obj [("arguments", Json.arr (pre ++ e :: post))])) =
        CallArguments.from_json
          (some (Json.obj [("arguments", Json.arr (pre ++ post))]))) ∧
    (∀ tvs : List (String × String),
      CallArguments.from_json (some (Json.obj [("arguments", Json.arr (tvs.map (fun tv =>
        Json.obj [("argument_type", Json.str tv.1),
          ("argument_value", Json.str tv.2)])))])) = .ok tvs) := by
  constructor
  · intro pre post e hbad
    have hnone : extractArg e = none := by
      unfold extractArg
      rcases hbad with hb | hb
      · rw [hb]
      · cases hT : (e.index "argument_type").asStr with
        | none => rfl
        | some t => simp only [hT, hb]
    rw [from_json_args, from_json_args]
    simp only [List.filterMap_append, List.filterMap_cons, hnone]
  · intro tvs
    rw [from_json_args, filterMap_extractArg_map]

/-- C10 (witness): an entry whose `"argument_type"` is the number `5` is
dropped and the remaining well-formed entry is kept. -/
theorem c10_nonstring_fields_dropped_witness :
    CallArguments.from_json (some (Json.obj [("arguments", Json.arr
      [Json.obj [("argument_type", Json.num 5), ("argument_value", Json.str "1")],
       Json.obj [("argument_type", Json.str "u8"), ("argument_value", Json.str "1")]])])) =
      .ok [("u8", "1")] := by
  have h := c10_nonstring_fields_dropped.1 []
    [Json.obj [("argument_type", Json.str "u8"), ("argument_value", Json.str "1")]]
    (Json.obj [("argument_type", Json.num 5), ("argument_value", Json.str "1")])
    (Or.inl rfl)
  have h2 := c10_nonstring_fields_dropped.2 [("u8", "1")]
  exact h.trans h2
